import Mathlib

/-
Verification of the core data model and operations of the stainless_script
node-graph runtime, shallowly embedded from the Rust sources.
Machine integers are modelled as Nat with explicit reductions modulo 2 ^ 32
or 2 ^ 64 at every narrowing cast, and every panicking operation is modelled
as an Option-valued function returning none on the panic.
-/

set_option maxRecDepth 4000

/-- Generic association-list lookup, modelling lookup in the HashMap and
BTreeMap containers of the source (keys are unique in those containers, so
first-match lookup coincides with map lookup). -/
def assocGet {κ α : Type} [DecidableEq κ] : List (κ × α) → κ → Option α
  | [], _ => none
  | e :: t, k => if e.1 = k then some e.2 else assocGet t k

/-- Generic association-list insertion that replaces an existing binding,
modelling HashMap and BTreeMap insert of the source. -/
def assocInsert {κ α : Type} [DecidableEq κ] : List (κ × α) → κ → α → List (κ × α)
  | [], k, v => [(k, v)]
  | e :: t, k, v => if e.1 = k then (k, v) :: t else e :: assocInsert t k v

/-- Splitting a sequence at a separator, modelling the Rust
str::split iterator (used by the source on characters) and the equivalent
byte-level splitting: n separators yield n + 1 pieces, empty pieces kept,
and the empty input yields one empty piece. -/
def splitSep {α : Type} [DecidableEq α] (sep : α) : List α → List (List α)
  | [] => [[]]
  | c :: rest =>
    match splitSep sep rest with
    | [] => [[]]
    | cur :: others =>
      if c = sep then [] :: cur :: others else (c :: cur) :: others

/- Identifiers (src/src/node.rs, src/src/socket.rs, src/src/module.rs). -/

/-- NodeBranchId from src/src/node.rs: pair of a node id (u32) and a branch
index (usize). -/
structure NodeBranchId where
  node : Nat
  branch : Nat
deriving DecidableEq

/-- Embedding of the impl From for u64 conversion in src/src/node.rs:
the 64-bit value is (node as u64) << 32 | branch as u64, computed in u64.
The operands are reduced to their source types (u32 and usize on a 64-bit
target) before the shift. -/
def nodeBranchIdToU64 (s : NodeBranchId) : Nat :=
  ((s.node % 2 ^ 32) <<< 32) ||| (s.branch % 2 ^ 64)

/-- Embedding of the impl From for NodeBranchId conversion in
src/src/node.rs. The source computes, in u64 arithmetic,
branch_idx = (((1 << 33) - 1) & n) as u32 and
node_id = ((((1 << 33) - 1) << 32) & n) as u32; the left shift wraps
modulo 2 ^ 64 and each cast to u32 reduces modulo 2 ^ 32. -/
def u64ToNodeBranchId (n : Nat) : NodeBranchId :=
  { node := ((((2 ^ 33 - 1) <<< 32) % 2 ^ 64) &&& n) % 2 ^ 32
    branch := ((2 ^ 33 - 1) &&& n) % 2 ^ 32 }

/-- SocketId from src/src/socket.rs: pair of a node id (u32) and a socket
index (usize). -/
structure SocketId where
  node : Nat
  idx : Nat
deriving DecidableEq

/-- Embedding of the impl From for u64 conversion in src/src/socket.rs:
(node as u64) << 32 | idx as u64, computed in u64. -/
def socketIdToU64 (s : SocketId) : Nat :=
  ((s.node % 2 ^ 32) <<< 32) ||| (s.idx % 2 ^ 64)

/-- Embedding of the impl From for SocketId conversion in src/src/socket.rs:
node = (n >> 32) as u32 and idx = (n as u32) as usize. -/
def u64ToSocketId (n : Nat) : SocketId :=
  { node := (n >>> 32) % 2 ^ 32
    idx := n % 2 ^ 32 }

/-- ModulePath from src/src/module.rs: a list of segments and a leaf.
Strings are modelled at the character level, matching the char-based
splitting done by the Rust parser. -/
structure ModulePath where
  segments : List (List Char)
  leaf : List Char
deriving DecidableEq

/-- Embedding of the FromStr impl for ModulePath in src/src/module.rs:
split the input on the dot character, pop the last piece as the leaf
(reporting an error when pop yields nothing), keep the rest as segments. -/
def modulePathFromChars (s : List Char) : Option ModulePath :=
  let seq := splitSep '.' s
  match seq.getLast?, seq.dropLast with
  | some leaf, segs => some { segments := segs, leaf := leaf }
  | none, _ => none

/- Node storage (src/src/node.rs). -/

/-- NodeStorage from src/src/node.rs: a BTreeMap from node ids to nodes
plus the next_vacant hint. The node payload is a type parameter standing
for the trait objects stored by the source. -/
structure NodeStorage (ν : Type) where
  nodes : List (Nat × ν)
  next_vacant : Nat
deriving DecidableEq

/-- Fuelled rendering of the while loop in insert_node and insert_node_at
of src/src/node.rs: starting at k, advance while the id is occupied.
A fuel of one more than the number of stored nodes always suffices, since
that many consecutive ids cannot all be occupied. -/
def firstFreeFrom {ν : Type} (m : List (Nat × ν)) : Nat → Nat → Nat
  | k, 0 => k
  | k, fuel + 1 => if (assocGet m k).isSome then firstFreeFrom m (k + 1) fuel else k

/-- Embedding of NodeStorage::insert_node from src/src/node.rs: insert the
node at next_vacant, then advance the local variable past every occupied id,
store it as the new next_vacant and return it. Returns the updated storage
together with the returned node id. -/
def insert_node {ν : Type} (s : NodeStorage ν) (node : ν) : NodeStorage ν × Nat :=
  let node_id := s.next_vacant
  let nodes2 := assocInsert s.nodes node_id node
  let ret := firstFreeFrom nodes2 node_id (nodes2.length + 1)
  ({ nodes := nodes2, next_vacant := ret }, ret)

/- Objects and classes (src/src/object.rs, src/src/class.rs). -/

/-- Runtime object, modelling the parts of the Object trait interface of
src/src/object.rs that the verified operations read: the name of its class
and its textual rendering (Display, used by as_string). -/
structure Obj where
  className : String
  text : String
deriving DecidableEq

/-- Class descriptor from src/src/class.rs, carrying the name and the
optional from-text parser. The prototype node list is not read by any
verified operation and is omitted. The parser returns none where the
source parser returns an error. -/
structure ClassM where
  name : String
  objFromStr : Option (String → Option Obj)

/-- Embedding of Object::cast_to from src/src/object.rs: objects of class
any are converted by unwrapping the target parser and unwrapping its result
(none models either panic); every other class hits unimplemented, also
modelled as none. -/
def castTo (x : Obj) (tgt : ClassM) : Option Obj :=
  if x.className = "any" then
    match tgt.objFromStr with
    | some f => f x.text
    | none => none
  else none

/- Array parsing (src/src/stdlib/array_type.rs). -/

/-- Byte-level trim used by the item loop of the array parser; the source
trims whitespace around each comma-separated piece. This code is only
reached after both leading assertions succeed. -/
def trimBytes (l : List Nat) : List Nat :=
  ((l.dropWhile (fun b => b = 32)).reverse.dropWhile (fun b => b = 32)).reverse

/-- Embedding of the FromStr impl for Array in src/src/stdlib/array_type.rs,
over the byte string of the input. The first assertion slices the first two
bytes (a panic, hence none, when fewer exist) and compares them with the
one-byte string of byte 91; the second assertion compares the final byte
with byte 93. The body then splits the interior on byte 44 and parses every
trimmed piece as AnyType, which wraps the piece verbatim and never fails;
items are therefore modelled by their byte strings. -/
def arrayFromStrBytes (s : List Nat) : Option (List (List Nat)) :=
  if 2 ≤ s.length then
    if s.take 2 = [91] then
      if s.drop (s.length - 1) = [93] then
        some ((splitSep 44 ((s.drop 1).take (s.length - 2))).map trimBytes)
      else none
    else none
  else none

/- Executor (src/src/lib.rs). -/

/-- Absolute node id from src/src/lib.rs: a program path and a node id. -/
structure AbsoluteNodeId where
  program : ModulePath
  node : Nat
deriving DecidableEq

/-- LoadedProgram as read by the executor of src/src/lib.rs. Only the
branch-edge table is read by the modelled executor operations; the node
storage and data tables of the source structure are not consulted by them
and are omitted here. -/
structure ExecLoadedProgram where
  branch_edges : List (NodeBranchId × Nat)
deriving DecidableEq

/-- LoadedProgramData from src/src/lib.rs: the map from program paths to
loaded programs (the module tree is not read by the modelled operations). -/
structure LoadedProgramData where
  programs : List (ModulePath × ExecLoadedProgram)
deriving DecidableEq

/-- Embedding of LoadedProgram::get_next_node from src/src/lib.rs: look up
the branch-edge table at the pair of the current node and the branch. -/
def progGetNextNode (p : ExecLoadedProgram) (current branch : Nat) : Option Nat :=
  assocGet p.branch_edges { node := current, branch := branch }

/-- Embedding of LoadedProgramData::get_next_node from src/src/lib.rs:
find the program of the id, look up its successor, and requalify it with
the same program path. -/
def execGetNextNode (l : LoadedProgramData) (nid : AbsoluteNodeId) (branch : Nat) :
    Option AbsoluteNodeId :=
  match assocGet l.programs nid.program with
  | none => none
  | some p =>
    match progGetNextNode p nid.node branch with
    | none => none
    | some nxt => some { program := nid.program, node := nxt }

/-- Executor from src/src/lib.rs: the call stack of absolute node ids (the
head of the list is the top of the Vec), the per-node output values, the
loaded program data and the auto-execution flag. -/
structure Executor where
  node_stack : List AbsoluteNodeId
  node_outputs : List (AbsoluteNodeId × List Obj)
  loaded : LoadedProgramData
  auto_execution : Bool
deriving DecidableEq

/-- Embedding of Executor::set_node_outputs from src/src/lib.rs: insert the
values under the current node, which is read with last().unwrap() and hence
panics (none) when the stack is empty. -/
def set_node_outputs (e : Executor) (values : List Obj) : Option Executor :=
  match e.node_stack with
  | [] => none
  | top :: _ => some { e with node_outputs := assocInsert e.node_outputs top values }

/-- Embedding of Executor::execute_subroutine from src/src/lib.rs: push the
target node onto the stack, then write the input values as the outputs of
the current (freshly pushed) node. -/
def execute_subroutine (e : Executor) (node_id : AbsoluteNodeId)
    (input_values : List Obj) : Option Executor :=
  set_node_outputs { e with node_stack := node_id :: e.node_stack } input_values

/-- Embedding of Executor::finish_subroutine from src/src/lib.rs: pop the
stack (a Vec pop, a silent no-op on the empty stack), then write the return
values as the outputs of the new current node (panicking when none is
left). -/
def finish_subroutine (e : Executor) (return_values : List Obj) : Option Executor :=
  set_node_outputs { e with node_stack := e.node_stack.tail } return_values

/-- Embedding of Executor::advance from src/src/lib.rs: pop the current
node with unwrap, look up the successor with unwrap, and push it; both
unwraps panic (none) when their operand is missing. -/
def advance (e : Executor) (branch : Nat) : Option Executor :=
  match e.node_stack with
  | [] => none
  | node_id :: rest =>
    match execGetNextNode e.loaded node_id branch with
    | none => none
    | some nxt => some { e with node_stack := nxt :: rest }

/-- Module path of the main program, used by the concrete executor states
below. -/
def mainPath : ModulePath :=
  { segments := [], leaf := "__main__".data }

/-- Concrete executor whose single stacked node has no outgoing branch
edge: the loaded data holds its program with an empty branch-edge table. -/
def eC1 : Executor :=
  { node_stack := [{ program := mainPath, node := 0 }]
    node_outputs := []
    loaded := { programs := [(mainPath, { branch_edges := [] })] }
    auto_execution := false }

/-- Concrete executor used to witness the amended claim C1: no program is
loaded at all, so the top node has no successor. -/
def eW1 : Executor :=
  { node_stack := [{ program := mainPath, node := 1 }]
    node_outputs := []
    loaded := { programs := [] }
    auto_execution := false }

/-- Concrete executor whose call stack holds a single frame, used to show
the failing case of finish_subroutine. -/
def eC2 : Executor :=
  { node_stack := [{ program := mainPath, node := 5 }]
    node_outputs := []
    loaded := { programs := [] }
    auto_execution := false }

/-- Concrete executor with a two-frame call stack, used to witness the
amended claim C2. -/
def eW2 : Executor :=
  { node_stack := [{ program := mainPath, node := 7 }, { program := mainPath, node := 2 }]
    node_outputs := []
    loaded := { programs := [] }
    auto_execution := false }

/- Data flow store (src/src/program.rs). -/

/-- Connection from src/src/socket.rs: a directed data-flow edge from an
output socket to an input socket. The OutputSocketId and InputSocketId
single-field wrappers are flattened to their underlying socket ids. -/
structure Connection where
  output : SocketId
  input : SocketId
deriving DecidableEq

/-- LoadedProgram from src/src/program.rs, restricted to the fields read by
set_outputs and get_inputs: the connection map carrying an optional current
value per connection, the constant-input table, and the node storage viewed
through the only access get_inputs performs on it, namely looking a node up
and reading its declared input socket list (each input socket carries its
class). -/
structure LoadedProgram where
  connections : List (Connection × Option Obj)
  const_inputs : List (SocketId × String)
  nodeInputs : Nat → Option (List ClassM)

/-- One pass of the outer loop of LoadedProgram::set_outputs from
src/src/program.rs: for output index i with value out, overwrite the value
of every connection whose output socket is (node_id, i). -/
def setOutputStep (node_id i : Nat) (out : Obj) (conns : List (Connection × Option Obj)) :
    List (Connection × Option Obj) :=
  conns.map fun cv =>
    if cv.1.output.node = node_id ∧ cv.1.output.idx = i then (cv.1, some out) else cv

/-- Embedding of LoadedProgram::set_outputs from src/src/program.rs:
enumerate the output values and run the update pass for each index in
order. -/
def set_outputs (p : LoadedProgram) (node_id : Nat) (outputs : List Obj) : LoadedProgram :=
  { p with connections :=
      outputs.enum.foldl (fun acc io => setOutputStep node_id io.1 io.2 acc) p.connections }

/-- Concrete program used to witness claim C3: one connection leaving node
1 and one leaving node 2. -/
def pW3 : LoadedProgram :=
  { connections :=
      [({ output := { node := 1, idx := 0 }, input := { node := 5, idx := 0 } }, none),
       ({ output := { node := 2, idx := 0 }, input := { node := 5, idx := 1 } },
        some { className := "num", text := "9" })]
    const_inputs := []
    nodeInputs := fun _ => none }

/-- Entries contributed to the input map by data connections, following the
first half of LoadedProgram::get_inputs in src/src/program.rs: every
connection whose input socket belongs to the queried node and whose value
slot is non-empty yields the pair of its input index and its value. -/
def connEntries (p : LoadedProgram) (node_id : Nat) : List (Nat × Obj) :=
  p.connections.filterMap fun cv =>
    if cv.1.input.node = node_id then cv.2.map (fun o => (cv.1.input.idx, o)) else none

/-- One constant-input entry of LoadedProgram::get_inputs in
src/src/program.rs. The outer Option models the three unwrap panics of the
source (missing node, class without parser, failing parse); the inner
Option distinguishes a skipped entry (index outside the declared inputs of
the queried node, or an entry of another node) from a produced pair. -/
def constEntry (p : LoadedProgram) (node_id : Nat) (sv : SocketId × String) :
    Option (Option (Nat × Obj)) :=
  match p.nodeInputs node_id with
  | none => none
  | some inputs =>
    match inputs[sv.1.idx]? with
    | none => some none
    | some cls =>
      if sv.1.node = node_id then
        match cls.objFromStr with
        | none => none
        | some f =>
          match f sv.2 with
          | none => none
          | some o => some (some (sv.1.idx, o))
      else some none

/-- Iteration of constEntry over the constant-input table, propagating any
panic and dropping skipped entries. -/
def constEntriesGo (p : LoadedProgram) (node_id : Nat) :
    List (SocketId × String) → Option (List (Nat × Obj))
  | [] => some []
  | sv :: t =>
    match constEntry p node_id sv with
    | none => none
    | some none => constEntriesGo p node_id t
    | some (some e) => (constEntriesGo p node_id t).map (fun r => e :: r)

/-- The chained entry sequence of LoadedProgram::get_inputs: connection
entries first, then constant entries, in table order; collected into the
BTreeMap, a later entry for the same index overwrites an earlier one. -/
def c4entries (p : LoadedProgram) (node_id : Nat) : Option (List (Nat × Obj)) :=
  (constEntriesGo p node_id p.const_inputs).map (fun ce => connEntries p node_id ++ ce)

/-- Lookup in the collected BTreeMap: the value of the last entry carrying
the index, none when no entry does. -/
def lookupLast : List (Nat × Obj) → Nat → Option Obj
  | [], _ => none
  | e :: t, i =>
    match lookupLast t i with
    | some o => some o
    | none => if e.1 = i then some e.2 else none

/-- Largest key of the collected map, or 0 when it is empty, following
max().unwrap_or(0) in the source. -/
def maxKey : List (Nat × Obj) → Nat
  | [] => 0
  | e :: t => max e.1 (maxKey t)

/-- Embedding of LoadedProgram::get_inputs from src/src/program.rs: build
the entry map from connections and constant inputs and read it densely
from index 0 up to and including the largest key (0 when there is none). -/
def get_inputs (p : LoadedProgram) (node_id : Nat) : Option (List (Option Obj)) :=
  match c4entries p node_id with
  | none => none
  | some es => some ((List.range (maxKey es + 1)).map (lookupLast es))

/-- Concrete program with no connection and no constant input: nothing
mentions any input index. -/
def pC4 : LoadedProgram :=
  { connections := [], const_inputs := [], nodeInputs := fun _ => some [] }

/-- Concrete program used to witness the amended claim C4: node 7 receives
a value through a connection into input 2 and a constant into input 0,
whose class parses text into a string object. -/
def pW4 : LoadedProgram :=
  { connections :=
      [({ output := { node := 9, idx := 0 }, input := { node := 7, idx := 2 } },
        some { className := "num", text := "5" })]
    const_inputs := [({ node := 7, idx := 0 }, "hi")]
    nodeInputs := fun k =>
      if k = 7 then
        some [{ name := "str", objFromStr := some (fun s => some { className := "str", text := s }) }]
      else none }

/- Print node variants (src/src/stdlib/print_node.rs). -/

/-- Decimal digit character with value d. -/
def digitChar (d : Nat) : Char := Char.ofNat (48 + d)

/-- Decimal rendering of an unsigned integer, embedding the Display
behaviour of the integer amount inside the PrintVariant Display impl. -/
def natToChars (n : Nat) : List Char :=
  if _h : n < 10 then [digitChar n]
  else natToChars (n / 10) ++ [digitChar (n % 10)]
decreasing_by exact Nat.div_lt_self (by omega) (by omega)

/-- Digit-accumulating loop of the unsigned integer FromStr parser used by
PrintVariant parsing: consume decimal digits, fail on any other
character. -/
def parseDigitsAcc : List Char → Nat → Option Nat
  | [], acc => some acc
  | c :: t, acc =>
    if c.isDigit then parseDigitsAcc t (acc * 10 + (c.toNat - 48)) else none

/-- Embedding of u32::from_str as used by the PrintVariant parser: the
empty string fails, any non-digit fails, and a value at or above 2 ^ 32
overflows and fails. A leading plus sign, which the Rust integer parser
tolerates, is not modelled; no string under verification contains one. -/
def parseU32 (l : List Char) : Option Nat :=
  match l with
  | [] => none
  | c :: t =>
    match parseDigitsAcc (c :: t) 0 with
    | none => none
    | some n => if n < 2 ^ 32 then some n else none

/-- PrintVariant from src/src/stdlib/print_node.rs: the line flag (println
against print) and the amount of inputs. -/
structure PrintVariant where
  ln : Bool
  amount : Nat
deriving DecidableEq

/-- Embedding of the Display impl for PrintVariant: the kind keyword
selected by the line flag, a colon, and the decimal amount. -/
def variantChars (v : PrintVariant) : List Char :=
  (match v.ln with
   | true => "println".data
   | false => "print".data) ++ ':' :: natToChars v.amount

/-- Embedding of the FromStr impl for PrintVariant: the bare kind keywords
parse with amount 1; otherwise the input must split on the colon into
exactly a kind keyword and an amount that parses as a u32. -/
def printVariantFromChars (s : List Char) : Option PrintVariant :=
  if s = "print".data then some { ln := false, amount := 1 }
  else if s = "println".data then some { ln := true, amount := 1 }
  else
    match splitSep ':' s with
    | [print_kind, print_amount] =>
      match (if print_kind = "print".data then some false
             else if print_kind = "println".data then some true
             else none : Option Bool) with
      | none => none
      | some ln =>
        match parseU32 print_amount with
        | none => none
        | some amount => some { ln := ln, amount := amount }
    | _ => none

/-- Composition of Print::set_variant (which parses and unwraps) and
Print::current_variant (which renders the stored variant) from
src/src/stdlib/print_node.rs: what reading the variant returns after
setting it to the given string. -/
def printSetThenCurrent (s : List Char) : Option (List Char) :=
  (printVariantFromChars s).map variantChars

theorem assocGet_assocInsert_self {κ α : Type} [DecidableEq κ]
    (m : List (κ × α)) (k : κ) (v : α) : assocGet (assocInsert m k v) k = some v := by
  induction m with
  | nil => simp [assocInsert, assocGet]
  | cons e t ih =>
    by_cases h : e.1 = k
    · simp [assocInsert, h, assocGet]
    · simp [assocInsert, h, assocGet, ih]

theorem splitSep_ne_nil {α : Type} [DecidableEq α] (sep : α) (l : List α) :
    splitSep sep l ≠ [] := by
  cases l with
  | nil => simp [splitSep]
  | cons c rest =>
    simp only [splitSep]
    cases h : splitSep sep rest with
    | nil => simp
    | cons cur others => by_cases hc : c = sep <;> simp [hc]

/- Supporting lemmas for the packed 64-bit identifier conversions. -/

theorem shiftRight_lor (x y k : Nat) : (x ||| y) >>> k = (x >>> k) ||| (y >>> k) := by
  apply Nat.eq_of_testBit_eq
  intro i
  simp [Nat.testBit_lor]

theorem shiftLeft_then_shiftRight (a : Nat) : (a <<< 32) >>> 32 = a := by
  rw [Nat.shiftLeft_eq, Nat.shiftRight_eq_div_pow]
  exact Nat.mul_div_cancel a (Nat.two_pow_pos 32)

theorem socket_pack_mod (a b : Nat) (hb : b < 2 ^ 32) :
    ((a <<< 32) ||| b) % 2 ^ 32 = b := by
  rw [← Nat.and_pow_two_sub_one_eq_mod, Nat.and_distrib_right]
  have h1 : (a <<< 32) &&& (2 ^ 32 - 1) = 0 := by
    rw [Nat.and_pow_two_sub_one_eq_mod, Nat.shiftLeft_eq, Nat.mul_mod_left]
  have h2 : b &&& (2 ^ 32 - 1) = b := by
    rw [Nat.and_pow_two_sub_one_eq_mod, Nat.mod_eq_of_lt hb]
  rw [h1, h2]
  exact Nat.zero_or b

theorem socket_pack_shift (a b : Nat) (hb : b < 2 ^ 32) :
    ((a <<< 32) ||| b) >>> 32 = a := by
  rw [shiftRight_lor, shiftLeft_then_shiftRight]
  have hb0 : b >>> 32 = 0 := by
    rw [Nat.shiftRight_eq_div_pow]
    exact Nat.div_eq_of_lt hb
  rw [hb0, Nat.or_zero]

/-- Claim C5: packed 64-bit encoding of socket ids and branch ids
round-trips. The socket id conversion of src/src/socket.rs does round-trip,
but the branch id decoder of src/src/node.rs truncates the masked high word
with a cast to u32, so every decoded branch id carries node id 0: the pair
(1, 0) comes back as (0, 0). -/
theorem c5_packed_id_roundtrip :
    u64ToNodeBranchId (nodeBranchIdToU64 { node := 1, branch := 0 }) =
      { node := 0, branch := 0 }
    ∧ ∀ a b : Nat, a < 2 ^ 32 → b < 2 ^ 32 →
        u64ToSocketId (socketIdToU64 { node := a, idx := b }) = { node := a, idx := b } := by
  constructor
  · decide
  · intro a b ha hb
    have ha2 : a % 2 ^ 32 = a := Nat.mod_eq_of_lt ha
    have hb2 : b % 2 ^ 64 = b := Nat.mod_eq_of_lt (lt_trans hb (by norm_num))
    simp only [u64ToSocketId, socketIdToU64, ha2, hb2]
    have h1 : ((a <<< 32) ||| b) >>> 32 % 2 ^ 32 = a := by
      rw [socket_pack_shift a b hb]
      exact Nat.mod_eq_of_lt ha
    have h2 : ((a <<< 32) ||| b) % 2 ^ 32 = b := socket_pack_mod a b hb
    rw [h1, h2]

/-- Witness for claim C5: the socket id (3, 5) round-trips through the
packed 64-bit form. -/
theorem c5_packed_id_roundtrip_witness :
    u64ToSocketId (socketIdToU64 { node := 3, idx := 5 }) = { node := 3, idx := 5 } :=
  c5_packed_id_roundtrip.2 3 5 (by norm_num) (by norm_num)

/-- Claim C6: NodeStorage::insert_node is expected to store the node under
the smallest unused id and return that id. On the empty storage the node is
stored under id 0, yet the function returns 1 (the advanced next_vacant),
and looking up the returned id finds nothing. -/
theorem c6_insert_node_bug :
    (insert_node ({ nodes := [], next_vacant := 0 } : NodeStorage Nat) 42).2 = 1
    ∧ assocGet (insert_node ({ nodes := [], next_vacant := 0 } : NodeStorage Nat) 42).1.nodes 1
        = none
    ∧ assocGet (insert_node ({ nodes := [], next_vacant := 0 } : NodeStorage Nat) 42).1.nodes 0
        = some 42 := by
  refine ⟨rfl, rfl, rfl⟩

/-- Claim C7: parsing a module path from the empty input is claimed to be
an error, yet splitting the empty string on the dot character yields one
empty piece, so the parser succeeds and produces a path with an empty leaf;
the NotEnoughItems error is unreachable. -/
theorem c7_module_path_empty_parse :
    modulePathFromChars [] = some { segments := [], leaf := [] } := rfl

/-- Claim C8: casting an object of the universal class any to a target
class with a from-text parser applies exactly that parser to the textual
rendering of the object, and casting an object of any other class fails. -/
theorem c8_cast_to_spec (x : Obj) (tgt : ClassM) :
    (∀ f, x.className = "any" → tgt.objFromStr = some f → castTo x tgt = f x.text)
    ∧ (x.className ≠ "any" → castTo x tgt = none) := by
  constructor
  · intro f hany hf
    simp [castTo, hany, hf]
  · intro hne
    simp [castTo, hne]

/-- Witness for claim C8: an any-wrapped text casts through a concrete
parser, and a non-any object fails to cast. -/
theorem c8_cast_to_spec_witness :
    castTo { className := "any", text := "7" }
        { name := "num", objFromStr := some (fun s => some { className := "num", text := s }) }
      = some { className := "num", text := "7" }
    ∧ castTo { className := "number", text := "7" }
        { name := "num", objFromStr := some (fun s => some { className := "num", text := s }) }
      = none := by
  constructor
  · exact (c8_cast_to_spec { className := "any", text := "7" }
      { name := "num", objFromStr := some (fun s => some { className := "num", text := s }) }).1
      (fun s => some { className := "num", text := s }) rfl rfl
  · exact (c8_cast_to_spec { className := "number", text := "7" }
      { name := "num", objFromStr := some (fun s => some { className := "num", text := s }) }).2
      (by decide)

/-- Claim C10: the array from-text parser never succeeds: the leading
assertion compares the first two bytes of the input with the one-byte
string of the opening bracket, which no input can satisfy, and shorter
inputs make the slice itself panic. -/
theorem c10_array_from_str_fails (s : List Nat) : arrayFromStrBytes s = none := by
  unfold arrayFromStrBytes
  by_cases h : 2 ≤ s.length
  · have hlen : (s.take 2).length = 2 := by
      rw [List.length_take]
      omega
    have hne : s.take 2 ≠ [91] := by
      intro heq
      rw [heq] at hlen
      simp at hlen
    simp [h, hne]
  · simp [h]

/-- Claim C1: the spec says that when the branch-edge table has no
successor for the returned branch, the executor synthesizes an implicit
end node and the step completes without error. On this concrete state the
top node has no successor for branch 0 and advance fails (the unwrap in
Executor::get_next_node panics) instead of completing. -/
theorem c1_counterexample :
    eC1.node_stack.head? = some { program := mainPath, node := 0 }
    ∧ execGetNextNode eC1.loaded { program := mainPath, node := 0 } 0 = none
    ∧ advance eC1 0 = none := by
  refine ⟨rfl, by decide, by decide⟩

/-- Claim C1 (amended): whenever the top of the call stack has no successor
for the returned branch, advance fails (models the unwrap panic); no
implicit end node is synthesized. -/
theorem c1_advance_no_successor_fails (e : Executor) (b : Nat)
    (top : AbsoluteNodeId) (rest : List AbsoluteNodeId)
    (h1 : e.node_stack = top :: rest)
    (h2 : execGetNextNode e.loaded top b = none) :
    advance e b = none := by
  simp only [advance, h1, h2]

/-- Witness for the amended claim C1 at a concrete state. -/
theorem c1_advance_no_successor_fails_witness : advance eW1 0 = none :=
  c1_advance_no_successor_fails eW1 0 { program := mainPath, node := 1 } [] rfl rfl

/-- Claim C2: the claim asserts that on every state with a non-empty call
stack, finish_subroutine pops one frame and writes the values into the
output slots of the node left on top. With exactly one frame the pop
empties the stack and the subsequent current_node call panics (none); the
operation does not complete as claimed. -/
theorem c2_counterexample :
    eC2.node_stack.length = 1 ∧ finish_subroutine eC2 [] = none := by
  refine ⟨rfl, by decide⟩

/-- Claim C2 (amended): execute_subroutine always grows the call stack by
exactly one, pushing the target and writing the argument values into the
output slots of the target; finish_subroutine, on a stack with at least
two frames, shrinks it by exactly one and writes the values into the
output slots of the node left on top (the caller). The stack length never
goes negative: with a single frame, finish_subroutine fails instead of
completing. -/
theorem c2_subroutine_stack (e : Executor) (nid : AbsoluteNodeId) (vals : List Obj) :
    (∃ e2, execute_subroutine e nid vals = some e2
      ∧ e2.node_stack.length = e.node_stack.length + 1
      ∧ e2.node_stack = nid :: e.node_stack
      ∧ assocGet e2.node_outputs nid = some vals)
    ∧ (∀ fr1 fr2 rest, e.node_stack = fr1 :: fr2 :: rest →
        ∃ e2, finish_subroutine e vals = some e2
          ∧ e2.node_stack.length + 1 = e.node_stack.length
          ∧ e2.node_stack = fr2 :: rest
          ∧ assocGet e2.node_outputs fr2 = some vals) := by
  constructor
  · refine ⟨{ e with node_stack := nid :: e.node_stack, node_outputs := assocInsert e.node_outputs nid vals }, ?_, rfl, rfl, ?_⟩
    · simp [execute_subroutine, set_node_outputs]
    · exact assocGet_assocInsert_self e.node_outputs nid vals
  · intro fr1 fr2 rest h
    refine ⟨{ e with node_stack := fr2 :: rest, node_outputs := assocInsert e.node_outputs fr2 vals }, ?_, ?_, rfl, ?_⟩
    · simp [finish_subroutine, set_node_outputs, h]
    · simp [h]
    · exact assocGet_assocInsert_self e.node_outputs fr2 vals

/-- Witness for the amended claim C2 at a concrete two-frame state. -/
theorem c2_subroutine_stack_witness :
    (∃ e2, execute_subroutine eW2 { program := mainPath, node := 9 }
        [{ className := "num", text := "5" }] = some e2
      ∧ e2.node_stack.length = eW2.node_stack.length + 1
      ∧ e2.node_stack = { program := mainPath, node := 9 } :: eW2.node_stack
      ∧ assocGet e2.node_outputs { program := mainPath, node := 9 }
          = some [{ className := "num", text := "5" }])
    ∧ (∃ e2, finish_subroutine eW2 [{ className := "num", text := "5" }] = some e2
      ∧ e2.node_stack.length + 1 = eW2.node_stack.length
      ∧ e2.node_stack = [{ program := mainPath, node := 2 }]
      ∧ assocGet e2.node_outputs { program := mainPath, node := 2 }
          = some [{ className := "num", text := "5" }]) :=
  ⟨(c2_subroutine_stack eW2 { program := mainPath, node := 9 }
      [{ className := "num", text := "5" }]).1,
   (c2_subroutine_stack eW2 { program := mainPath, node := 9 }
      [{ className := "num", text := "5" }]).2
      { program := mainPath, node := 7 } { program := mainPath, node := 2 } [] rfl⟩

theorem foldl_setOutputStep_map (n : Nat) :
    ∀ (l : List (Nat × Obj)) (conns : List (Connection × Option Obj)),
      l.foldl (fun acc io => setOutputStep n io.1 io.2 acc) conns
      = conns.map fun cv =>
          l.foldl (fun cv2 io =>
            if cv2.1.output.node = n ∧ cv2.1.output.idx = io.1
            then (cv2.1, some io.2) else cv2) cv := by
  intro l
  induction l with
  | nil =>
    intro conns
    simp only [List.foldl_nil]
    exact ((List.map_congr_left (fun cv _ => rfl)).trans (List.map_id conns)).symm
  | cons io t ih =>
    intro conns
    rw [List.foldl_cons, ih (setOutputStep n io.1 io.2 conns), setOutputStep, List.map_map]
    exact List.map_congr_left (fun cv _ => rfl)

theorem foldl_connUpdate (n : Nat) (c : Connection) (v : List Obj) :
    ∀ (s : Nat) (w : Option Obj),
      (v.enumFrom s).foldl (fun cv2 io =>
          if cv2.1.output.node = n ∧ cv2.1.output.idx = io.1
          then (cv2.1, some io.2) else cv2) (c, w)
      = if c.output.node = n ∧ s ≤ c.output.idx ∧ c.output.idx < s + v.length
        then (c, v[c.output.idx - s]?) else (c, w) := by
  induction v with
  | nil =>
    intro s w
    simp only [List.enumFrom, List.foldl_nil, List.length_nil]
    rw [if_neg]
    intro hc
    have h2 := hc.2.2
    omega
  | cons o v ih =>
    intro s w
    rw [List.enumFrom_cons, List.foldl_cons]
    show (v.enumFrom (s + 1)).foldl _
        (if c.output.node = n ∧ c.output.idx = s then (c, some o) else (c, w)) = _
    simp only [List.length_cons]
    by_cases hcond : c.output.node = n ∧ c.output.idx = s
    · rw [if_pos hcond, ih (s + 1) (some o),
        if_neg (fun hc => by have h2 := hc.2.1; have h3 := hcond.2; omega),
        if_pos ⟨hcond.1, by omega, by have h3 := hcond.2; omega⟩,
        show c.output.idx - s = 0 from by have h3 := hcond.2; omega]
      simp
    · rw [if_neg hcond, ih (s + 1) w]
      by_cases hn : c.output.node = n
      · have hs : ¬ c.output.idx = s := fun h2 => hcond ⟨hn, h2⟩
        by_cases hr : s + 1 ≤ c.output.idx ∧ c.output.idx < s + 1 + v.length
        · rw [if_pos ⟨hn, hr⟩, if_pos ⟨hn, by omega, by omega⟩,
            show c.output.idx - s = (c.output.idx - (s + 1)) + 1 from by omega]
          simp
        · rw [if_neg (fun hc => hr ⟨by have h2 := hc.2.1; omega,
              by have h2 := hc.2.2; omega⟩),
            if_neg (fun hc => hr ⟨by have h2 := hc.2.1; omega,
              by have h2 := hc.2.2; omega⟩)]
      · rw [if_neg (fun hc => hn hc.1), if_neg (fun hc => hn hc.1)]

/-- Claim C3: after set_outputs(n, v), the connection at any position k of
the connection table keeps its connection key; when its source socket is
(n, i) with i below the length of v it now holds exactly component i of v,
and when its source node is not n it holds the value it held before. -/
theorem c3_set_outputs_effect (p : LoadedProgram) (n : Nat) (v : List Obj)
    (k : Nat) (c : Connection) (w : Option Obj)
    (h : p.connections[k]? = some (c, w)) :
    (∀ i, c.output.node = n → c.output.idx = i → i < v.length →
      (set_outputs p n v).connections[k]? = some (c, v[i]?))
    ∧ (c.output.node ≠ n → (set_outputs p n v).connections[k]? = some (c, w)) := by
  have hconn : (set_outputs p n v).connections
      = p.connections.map fun cv =>
          if cv.1.output.node = n ∧ 0 ≤ cv.1.output.idx ∧ cv.1.output.idx < 0 + v.length
          then (cv.1, v[cv.1.output.idx - 0]?) else cv := by
    show (v.enumFrom 0).foldl (fun acc io => setOutputStep n io.1 io.2 acc) p.connections = _
    rw [foldl_setOutputStep_map n (v.enumFrom 0) p.connections]
    apply List.map_congr_left
    rintro ⟨c2, w2⟩ _
    exact foldl_connUpdate n c2 v 0 w2
  constructor
  · intro i hnode hidx hlen
    rw [hconn, List.getElem?_map, h]
    simp only [Option.map_some']
    rw [if_pos ⟨hnode, by omega, by omega⟩]
    rw [Nat.sub_zero, hidx]
  · intro hne
    rw [hconn, List.getElem?_map, h]
    simp only [Option.map_some']
    rw [if_neg (by intro hc; exact hne hc.1)]

/-- Witness for claim C3 on a concrete program: the connection leaving node
1 receives component 0 of the written outputs and the connection leaving
node 2 keeps its previous value. -/
theorem c3_set_outputs_effect_witness :
    (set_outputs pW3 1 [{ className := "num", text := "4" }]).connections[0]?
      = some ({ output := { node := 1, idx := 0 }, input := { node := 5, idx := 0 } },
          ([{ className := "num", text := "4" }] : List Obj)[0]?)
    ∧ (set_outputs pW3 1 [{ className := "num", text := "4" }]).connections[1]?
      = some ({ output := { node := 2, idx := 0 }, input := { node := 5, idx := 1 } },
          some { className := "num", text := "9" }) :=
  ⟨(c3_set_outputs_effect pW3 1 [{ className := "num", text := "4" }] 0
      { output := { node := 1, idx := 0 }, input := { node := 5, idx := 0 } } none rfl).1
      0 rfl rfl (by decide),
   (c3_set_outputs_effect pW3 1 [{ className := "num", text := "4" }] 1
      { output := { node := 2, idx := 0 }, input := { node := 5, idx := 1 } }
      (some { className := "num", text := "9" }) rfl).2 (by decide)⟩

theorem lookupLast_mem :
    ∀ (l : List (Nat × Obj)) (i : Nat) (o : Obj), lookupLast l i = some o → (i, o) ∈ l := by
  intro l
  induction l with
  | nil => intro i o h; simp [lookupLast] at h
  | cons e t ih =>
    intro i o h
    simp only [lookupLast] at h
    cases hlt : lookupLast t i with
    | some o2 =>
      rw [hlt] at h
      simp only [Option.some.injEq] at h
      exact h ▸ List.mem_cons_of_mem e (ih i o2 hlt)
    | none =>
      rw [hlt] at h
      by_cases he : e.1 = i
      · rw [if_pos he, Option.some.injEq] at h
        have h2 : (i, o) = e := by
          rw [← he, ← h]
        rw [h2]
        exact List.mem_cons_self e t
      · rw [if_neg he] at h
        exact absurd h (by simp)

theorem lookupLast_eq_none_iff (l : List (Nat × Obj)) (i : Nat) :
    lookupLast l i = none ↔ ∀ o : Obj, (i, o) ∉ l := by
  induction l with
  | nil => simp [lookupLast]
  | cons e t ih =>
    simp only [lookupLast]
    cases hlt : lookupLast t i with
    | some o2 =>
      constructor
      · intro h
        exact absurd h (by simp)
      · intro hall
        exact absurd (List.mem_cons_of_mem e (lookupLast_mem t i o2 hlt)) (hall o2)
    | none =>
      have ht : ∀ o : Obj, (i, o) ∉ t := ih.mp hlt
      by_cases he : e.1 = i
      · rw [if_pos he]
        constructor
        · intro h
          exact absurd h (by simp)
        · intro hall
          exfalso
          apply hall e.2
          have h2 : (i, e.2) = e := by
            rw [← he]
          rw [h2]
          exact List.mem_cons_self e t
      · rw [if_neg he]
        constructor
        · intro _ o hmem
          rcases List.mem_cons.mp hmem with h1 | h2
          · exact he (by rw [← h1])
          · exact ht o h2
        · intro _
          rfl

theorem mem_le_maxKey (l : List (Nat × Obj)) :
    ∀ e ∈ l, e.1 ≤ maxKey l := by
  induction l with
  | nil => simp
  | cons e2 t ih =>
    intro e hmem
    rcases List.mem_cons.mp hmem with h1 | h2
    · rw [h1]
      exact le_max_left e2.1 (maxKey t)
    · exact le_trans (ih e h2) (le_max_right e2.1 (maxKey t))

/-- Claim C4: the claim states that when no input index is mentioned at
all, get_inputs returns the empty sequence. On a program with no
connections and no constant inputs, the maximum-key fallback of 0 makes
the result a singleton holding one absent slot, not the empty sequence. -/
theorem c4_counterexample :
    get_inputs pC4 0 = some [none] ∧ ([none] : List (Option Obj)) ≠ [] :=
  ⟨rfl, by simp⟩

/-- Claim C4 (amended): when get_inputs completes, it returns a sequence
that is dense from index 0 up to the largest index mentioned by a
non-empty incoming connection or by a constant-input entry whose index
lies within the declared input list of the node, with 0 as fallback when
nothing is mentioned (so the result then is the singleton absent
sequence, not the empty one). Every slot carries the last collected value
for its index; slots whose index carries no entry are absent, and every
collected entry lies within the dense range. -/
theorem c4_get_inputs_dense (p : LoadedProgram) (nid : Nat) (res : List (Option Obj))
    (h : get_inputs p nid = some res) :
    ∃ es, c4entries p nid = some es
      ∧ res.length = maxKey es + 1
      ∧ (∀ i, i < res.length → res[i]? = some (lookupLast es i))
      ∧ (∀ i, lookupLast es i = none ↔ ∀ o : Obj, (i, o) ∉ es)
      ∧ (∀ e ∈ es, e.1 ≤ maxKey es) := by
  unfold get_inputs at h
  cases hc : c4entries p nid with
  | none => rw [hc] at h; exact absurd h (by simp)
  | some es =>
    rw [hc] at h
    simp only [Option.some.injEq] at h
    refine ⟨es, rfl, ?_, ?_, fun i => lookupLast_eq_none_iff es i, mem_le_maxKey es⟩
    · rw [← h, List.length_map, List.length_range]
    · intro i hi
      rw [← h] at hi ⊢
      rw [List.length_map, List.length_range] at hi
      rw [List.getElem?_map, List.getElem?_range hi, Option.map_some']

/-- Witness for the amended claim C4 on a concrete program whose dense
input sequence is the three slots from index 0 to index 2. -/
theorem c4_get_inputs_dense_witness :
    ∃ es, c4entries pW4 7 = some es
      ∧ ([some { className := "str", text := "hi" }, none,
          some { className := "num", text := "5" }] : List (Option Obj)).length = maxKey es + 1
      ∧ (∀ i, i < ([some { className := "str", text := "hi" }, none,
          some { className := "num", text := "5" }] : List (Option Obj)).length →
          ([some { className := "str", text := "hi" }, none,
            some { className := "num", text := "5" }] : List (Option Obj))[i]?
            = some (lookupLast es i))
      ∧ (∀ i, lookupLast es i = none ↔ ∀ o : Obj, (i, o) ∉ es)
      ∧ (∀ e ∈ es, e.1 ≤ maxKey es) :=
  c4_get_inputs_dense pW4 7
    [some { className := "str", text := "hi" }, none, some { className := "num", text := "5" }]
    rfl

theorem digitChar_isDigit : ∀ d, d < 10 → (digitChar d).isDigit = true := by decide

theorem digitChar_toNat : ∀ d, d < 10 → (digitChar d).toNat = 48 + d := by decide

theorem natToChars_all_digits (n : Nat) : ∀ c ∈ natToChars n, c.isDigit = true := by
  induction n using natToChars.induct with
  | case1 n h =>
    rw [natToChars, dif_pos h]
    intro c hc
    rw [List.mem_singleton.mp hc]
    exact digitChar_isDigit n h
  | case2 n h ih =>
    rw [natToChars, dif_neg h]
    intro c hc
    rcases List.mem_append.mp hc with h1 | h2
    · exact ih c h1
    · rw [List.mem_singleton.mp h2]
      exact digitChar_isDigit (n % 10) (Nat.mod_lt n (by omega))

theorem natToChars_ne_nil (n : Nat) : natToChars n ≠ [] := by
  rw [natToChars]
  by_cases h : n < 10
  · rw [dif_pos h]
    simp
  · rw [dif_neg h]
    simp

theorem parseDigitsAcc_append (l1 l2 : List Char) :
    ∀ acc, parseDigitsAcc (l1 ++ l2) acc
      = match parseDigitsAcc l1 acc with
        | none => none
        | some a2 => parseDigitsAcc l2 a2 := by
  induction l1 with
  | nil => intro acc; rfl
  | cons c t ih =>
    intro acc
    by_cases hc : c.isDigit
    · simp only [List.cons_append, parseDigitsAcc, hc, if_true]
      exact ih (acc * 10 + (c.toNat - 48))
    · simp only [List.cons_append, parseDigitsAcc]
      rw [if_neg hc, if_neg hc]

theorem parseDigitsAcc_natToChars (n : Nat) :
    ∀ acc, parseDigitsAcc (natToChars n) acc
      = some (acc * 10 ^ (natToChars n).length + n) := by
  induction n using natToChars.induct with
  | case1 n h =>
    intro acc
    rw [natToChars, dif_pos h]
    simp only [parseDigitsAcc, digitChar_isDigit n h, if_true, List.length_singleton]
    rw [digitChar_toNat n h]
    congr 1
    omega
  | case2 n h ih =>
    intro acc
    rw [natToChars, dif_neg h]
    rw [parseDigitsAcc_append]
    rw [ih acc]
    simp only [parseDigitsAcc, digitChar_isDigit (n % 10) (Nat.mod_lt n (by omega)), if_true]
    rw [digitChar_toNat (n % 10) (Nat.mod_lt n (by omega))]
    simp only [List.length_append, List.length_singleton]
    congr 1
    have hdm : n / 10 * 10 + n % 10 = n := by omega
    calc (acc * 10 ^ (natToChars (n / 10)).length + n / 10) * 10 + (48 + n % 10 - 48)
        = acc * (10 ^ (natToChars (n / 10)).length * 10) + (n / 10 * 10 + n % 10) := by
          ring_nf
          omega
      _ = acc * 10 ^ ((natToChars (n / 10)).length + 1) + n := by
          rw [hdm, pow_succ]

theorem parseU32_natToChars (n : Nat) (h : n < 2 ^ 32) :
    parseU32 (natToChars n) = some n := by
  cases hA : natToChars n with
  | nil => exact absurd hA (natToChars_ne_nil n)
  | cons c t =>
    have hval := parseDigitsAcc_natToChars n 0
    rw [hA] at hval
    simp only [parseU32, hval, Nat.zero_mul, Nat.zero_add]
    rw [if_pos h]

theorem splitSep_append {α : Type} [DecidableEq α] (sep : α) (a b : List α)
    (ha : sep ∉ a) : splitSep sep (a ++ sep :: b) = a :: splitSep sep b := by
  induction a with
  | nil =>
    simp only [List.nil_append, splitSep]
    cases hb : splitSep sep b with
    | nil => exact absurd hb (splitSep_ne_nil sep b)
    | cons cur others => simp
  | cons c a ih =>
    have hc : c ≠ sep := fun he => ha (he ▸ List.mem_cons_self c a)
    have ha2 : sep ∉ a := fun hm => ha (List.mem_cons_of_mem c hm)
    show splitSep sep (c :: (a ++ sep :: b)) = (c :: a) :: splitSep sep b
    simp only [splitSep]
    rw [ih ha2]
    show (if c = sep then [] :: a :: splitSep sep b else (c :: a) :: splitSep sep b)
      = (c :: a) :: splitSep sep b
    rw [if_neg hc]

theorem splitSep_no_sep {α : Type} [DecidableEq α] (sep : α) (b : List α)
    (hb : sep ∉ b) : splitSep sep b = [b] := by
  induction b with
  | nil => rfl
  | cons c t ih =>
    have hc : c ≠ sep := fun he => hb (he ▸ List.mem_cons_self c t)
    have ht : sep ∉ t := fun hm => hb (List.mem_cons_of_mem c hm)
    simp only [splitSep, ih ht]
    rw [if_neg hc]

theorem colon_not_in_natToChars (n : Nat) : ':' ∉ natToChars n := by
  intro hm
  have h2 := natToChars_all_digits n ':' hm
  exact absurd h2 (by decide)

/-- Claim C9: the claim asserts bit-for-bit round-trip for the bare
strings "print" and "println" as well. Setting the variant to "print" and
reading it back returns "print:1", not "print", because the Display impl
always renders the kind together with the amount. -/
theorem c9_counterexample :
    printSetThenCurrent "print".data = some "print:1".data
    ∧ "print:1".data ≠ "print".data := by
  constructor
  · show (printVariantFromChars "print".data).map variantChars = _
    have hp : printVariantFromChars "print".data = some { ln := false, amount := 1 } := by
      simp [printVariantFromChars]
    rw [hp, Option.map_some']
    show some ("print".data ++ ':' :: natToChars 1) = _
    have h1 : natToChars 1 = [digitChar 1] := by
      rw [natToChars]
      simp
    rw [h1]
    decide
  · decide

/-- Claim C9 (amended): the round-trip is bit-for-bit for every variant
string of the form kind, colon, decimal arity: setting the variant to the
rendering of any stored variant with a u32 arity and reading it back
returns the identical string. The bare strings "print" and "println"
parse but re-render as "print:1" and "println:1". -/
theorem c9_print_variant_roundtrip (ln : Bool) (n : Nat) (h : n < 2 ^ 32) :
    printSetThenCurrent (variantChars { ln := ln, amount := n })
      = some (variantChars { ln := ln, amount := n }) := by
  have hcol := colon_not_in_natToChars n
  cases ln with
  | false =>
    have hne1 : "print".data ++ ':' :: natToChars n ≠ "print".data := by
      intro he
      have hm : (':' : Char) ∈ "print".data ++ ':' :: natToChars n :=
        List.mem_append.mpr (Or.inr (List.mem_cons_self ':' (natToChars n)))
      rw [he] at hm
      exact absurd hm (by decide)
    have hne2 : "print".data ++ ':' :: natToChars n ≠ "println".data := by
      intro he
      have hlen := congrArg List.length he
      simp only [List.length_append, List.length_cons] at hlen
      have h2 : (natToChars n).length = 1 := by
        simp at hlen
        omega
      have hm : (':' : Char) ∈ "print".data ++ ':' :: natToChars n :=
        List.mem_append.mpr (Or.inr (List.mem_cons_self ':' (natToChars n)))
      rw [he] at hm
      exact absurd hm (by decide)
    have hsplit : splitSep ':' ("print".data ++ ':' :: natToChars n)
        = ["print".data, natToChars n] := by
      rw [splitSep_append ':' "print".data (natToChars n) (by decide),
        splitSep_no_sep ':' (natToChars n) hcol]
    show (printVariantFromChars ("print".data ++ ':' :: natToChars n)).map variantChars
      = some ("print".data ++ ':' :: natToChars n)
    rw [printVariantFromChars, if_neg hne1, if_neg hne2, hsplit]
    show (match (if "print".data = "print".data then some false
             else if "print".data = "println".data then some true
             else none : Option Bool) with
      | none => none
      | some ln =>
        match parseU32 (natToChars n) with
        | none => none
        | some amount => some ({ ln := ln, amount := amount } : PrintVariant)).map variantChars = _
    rw [if_pos rfl]
    show (match parseU32 (natToChars n) with
      | none => none
      | some amount => some ({ ln := false, amount := amount } : PrintVariant)).map variantChars = _
    rw [parseU32_natToChars n h]
    rfl
  | true =>
    have hne1 : "println".data ++ ':' :: natToChars n ≠ "print".data := by
      intro he
      have hm : (':' : Char) ∈ "println".data ++ ':' :: natToChars n :=
        List.mem_append.mpr (Or.inr (List.mem_cons_self ':' (natToChars n)))
      rw [he] at hm
      exact absurd hm (by decide)
    have hne2 : "println".data ++ ':' :: natToChars n ≠ "println".data := by
      intro he
      have hm : (':' : Char) ∈ "println".data ++ ':' :: natToChars n :=
        List.mem_append.mpr (Or.inr (List.mem_cons_self ':' (natToChars n)))
      rw [he] at hm
      exact absurd hm (by decide)
    have hsplit : splitSep ':' ("println".data ++ ':' :: natToChars n)
        = ["println".data, natToChars n] := by
      rw [splitSep_append ':' "println".data (natToChars n) (by decide),
        splitSep_no_sep ':' (natToChars n) hcol]
    show (printVariantFromChars ("println".data ++ ':' :: natToChars n)).map variantChars
      = some ("println".data ++ ':' :: natToChars n)
    rw [printVariantFromChars, if_neg hne1, if_neg hne2, hsplit]
    show (match (if "println".data = "print".data then some false
             else if "println".data = "println".data then some true
             else none : Option Bool) with
      | none => none
      | some ln =>
        match parseU32 (natToChars n) with
        | none => none
        | some amount => some ({ ln := ln, amount := amount } : PrintVariant)).map variantChars = _
    rw [if_neg (by decide), if_pos rfl]
    show (match parseU32 (natToChars n) with
      | none => none
      | some amount => some ({ ln := true, amount := amount } : PrintVariant)).map variantChars = _
    rw [parseU32_natToChars n h]
    rfl

/-- Witness for the amended claim C9: the variant string print:3 survives
the set and read round-trip unchanged. -/
theorem c9_print_variant_roundtrip_witness :
    printSetThenCurrent (variantChars { ln := false, amount := 3 })
      = some (variantChars { ln := false, amount := 3 }) :=
  c9_print_variant_roundtrip false 3 (by norm_num)
